import Mathlib

set_option maxRecDepth 4000

namespace Stackbuddy

/-- Index of the first occurrence of `pat` as a contiguous substring of `s`,
modelling Rust's `str::find(&str)` (char-position rather than byte-position;
all pattern constants in this development are ASCII, where the two coincide
on the positions the code inspects). -/
def findSub (pat : List Char) : List Char → Option Nat
  | [] => if pat.isPrefixOf [] then some 0 else none
  | c :: t => if pat.isPrefixOf (c :: t) then some 0 else (findSub pat t).map (· + 1)

/-- Models Rust's `str::contains(&str)`. -/
def containsSub (pat s : List Char) : Bool :=
  (findSub pat s).isSome

/-- The open sentinel marker of the note merger (`replace_note` in `lib.rs`). -/
def OPEN : List Char := "<!-- stackbuddy note -->".data

/-- The close sentinel marker of the note merger. -/
def CLOSE : List Char := "<!-- /stackbuddy note -->".data

/-- Models `replace_note(pr_body, note)` from `lib.rs`: if both markers occur
with the first `OPEN` before the first `CLOSE`, the region between them is
replaced; otherwise a fresh delimited block is prepended to the whole body. -/
def replace_note (pr_body note : List Char) : List Char :=
  match findSub OPEN pr_body, findSub CLOSE pr_body with
  | some o, some c =>
    if o < c then
      pr_body.take o ++ OPEN ++ '\n' :: (note ++ '\n' :: (CLOSE ++ '\n' :: pr_body.drop (c + CLOSE.length)))
    else
      OPEN ++ '\n' :: (note ++ '\n' :: (CLOSE ++ '\n' :: pr_body))
  | _, _ => OPEN ++ '\n' :: (note ++ '\n' :: (CLOSE ++ '\n' :: pr_body))

/-- Models the state update performed by one call of `StackIter::next` in
`lib.rs`: the parent of the current branch, filtered to be neither the main
branch nor the current branch itself. `p` is the parent oracle, giving the
result of a successful `parent` call for each branch. -/
def stackNext (p : String → Option String) (main cur : String) : Option String :=
  ((p cur).filter (fun n => !(n == main))).filter (fun n => !(n == cur))

/-- Models collecting `StackIter { main, current }` into a vector
(`current_stack` / `stack_from` in `lib.rs`), with explicit fuel: `some S`
means the iterator terminated within `fuel` steps and produced `S`; `none`
means it had not yet terminated after `fuel` steps. -/
def runStackIter (p : String → Option String) (main : String) :
    Nat → Option String → Option (List String)
  | _, none => some []
  | 0, some _ => none
  | fuel + 1, some cur => (runStackIter p main fuel (stackNext p main cur)).map (cur :: ·)

/-- Strips every leading repetition of the two-character pattern `"* "`,
modelling the call `b.trim_start_matches("* ")` in `main_branch`. -/
def trimStarSpace : List Char → List Char
  | '*' :: ' ' :: rest => trimStarSpace rest
  | s => s

/-- Strips leading whitespace characters, one half of `str::trim`. -/
def trimLeft : List Char → List Char
  | [] => []
  | c :: rest => if c.isWhitespace then trimLeft rest else c :: rest

/-- Models `str::trim` (whitespace stripped from both ends). -/
def trim (s : List Char) : List Char :=
  (trimLeft (trimLeft s).reverse).reverse

/-- The cleaning applied to each `git branch` output line in `main_branch`:
`b.trim_start_matches("* ").trim()`. -/
def cleanBranchLine (b : List Char) : List Char :=
  trim (trimStarSpace b)

/-- Models `main_branch` from `lib.rs`, with the `git branch` stdout already
split into lines (the `.lines()` adapter boundary): finds the first line
that, after cleaning, reads exactly `main` or `master`. The `none` result
models the `TrunkNotFoundError` (`ok_or_eyre`) case. -/
def main_branch (lines : List (List Char)) : Option (List Char) :=
  (lines.map cleanBranchLine).find? (fun b => b == "main".data || b == "master".data)

/-- Strips every leading `'*'`, modelling `line.trim_start_matches('*')` in
`parent`. -/
def trimStars : List Char → List Char
  | '*' :: rest => trimStars rest
  | s => s

/-- Models `str::split_once(sep)`: splits at the first occurrence of `sep`. -/
def split_once (sep : Char) : List Char → Option (List Char × List Char)
  | [] => none
  | c :: rest =>
    if c = sep then some ([], rest)
    else (split_once sep rest).map (fun p => (c :: p.1, p.2))

/-- Models `str::find(char)`. -/
def findChar (c : Char) : List Char → Option Nat
  | [] => none
  | x :: t => if x = c then some 0 else (findChar c t).map (· + 1)

/-- Models `str::split(", ")` as used in `extract_branch`: cuts at each
leftmost occurrence of the two-character separator, scanning left to
right. -/
def splitCommaSpace : List Char → List (List Char)
  | [] => [[]]
  | ',' :: ' ' :: rest => [] :: splitCommaSpace rest
  | c :: rest =>
    match splitCommaSpace rest with
    | [] => [[c]]
    | p :: ps => (c :: p) :: ps

/-- Models `branch.strip_prefix("HEAD -> ").unwrap_or(branch)`. -/
def stripHeadArrow (b : List Char) : List Char :=
  if ("HEAD -> ".data).isPrefixOf b then b.drop ("HEAD -> ".data).length else b

/-- Models `extract_branch` from `lib.rs`. The outer `none` marks the
run-time panic of the slice `line[from..to]` when the first `')'` of the
line comes before the first `'('` (slice start past slice end); `some r` is
the normal return value `r`. -/
def extract_branch (line : List Char) : Option (Option (List Char)) :=
  match findChar '(' line with
  | none => some none
  | some i =>
    match findChar ')' line with
    | none => some none
    | some j =>
      if j < i + 1 then none
      else
        some (((((splitCommaSpace ((line.drop (i + 1)).take (j - (i + 1)))).map
            stripHeadArrow).filter
              (fun b => !(("origin/".data).isPrefixOf b))).filter
              (fun b => !(("tag: ".data).isPrefixOf b))).head?)

/-- The processing `parent` applies to one `git log` output line:
`trim_start_matches('*')`, `trim`, `split_once(' ')` (skipping the line when
there is no space), then `extract_branch` on the part after the first space.
Outer `none` models a panic inside `extract_branch`; `some none` means the
line yields no branch label; `some (some b)` means it yields `b`. -/
def line_result (line : List Char) : Option (Option (List Char)) :=
  match split_once ' ' (trim (trimStars line)) with
  | none => some none
  | some (_, rest) => extract_branch rest

/-- Models the line pipeline of `parent` in `lib.rs` over the `git log`
stdout lines. The iterator chain is lazy, so processing stops at the first
line yielding a branch; a panic (outer `none`) propagates; `some none`
models `Ok(None)` and `some (some b)` models `Ok(Some(b))`. -/
def parent_of_log : List (List Char) → Option (Option (List Char))
  | [] => some none
  | line :: rest =>
    match line_result line with
    | none => none
    | some (some b) => some (some b)
    | some none => parent_of_log rest

/-- Models `pr_for_branch` from `lib.rs` at its process boundary: `success`
is the exit status of `gh pr view`, `stdout`/`stderr` its captured output.
`Except.error` carries the stderr of a failing call that is not the
recognized not-found case. -/
def pr_for_branch (success : Bool) (stdout stderr : List Char) :
    Except (List Char) (Option (List Char)) :=
  if !success then
    if containsSub "no pull requests found".data stderr then Except.ok none
    else Except.error stderr
  else
    Except.ok (if stdout.isEmpty then none else some stdout)

/-- Models `note_double` from `lib.rs` (the `Ok` payload; the function never
returns an error). -/
def note_double (prev_pr next_pr : Option (List Char)) : List Char :=
  let n1 := "> [!Note]".data
  let n2 := match prev_pr with
    | some p => n1 ++ "\n> - Previous PR: #".data ++ p
    | none => n1
  let n3 := match next_pr with
    | some n => n2 ++ "\n> - Next PR: #".data ++ n
    | none => n2
  if n3 = "> [!Note]".data then
    n3 ++ "\n> This is currently the only PR in the stack".data
  else n3

/-- Models the write decision of `update_note` in `lib.rs`, with the fetched
PR body and the rendered note as inputs: the result is the body handed to
`set_pr_body`, or `none` when `set_pr_body` is not invoked (dry run, or the
merged body equals the existing body). -/
def update_note (body note : List Char) (dry_run : Bool) : Option (List Char) :=
  let new_body := replace_note body note
  if dry_run then none
  else if new_body ≠ body then some new_body
  else none

/-- Models `usize::wrapping_sub` on the 64-bit `usize` of the target. -/
def wrapping_sub (a b : Nat) : Nat :=
  (a + (2 ^ 64 - b % 2 ^ 64)) % 2 ^ 64

/-- Models the two neighbor lookups of `note_block` in `lib.rs`: `pr` is the
review oracle (the `Ok` payload of `pr_for_branch` per branch); the first
component is `prev_pr` (index `branch_index + 1`), the second is `next_pr`
(index `branch_index.wrapping_sub(1)`). `Vec::get`, which returns an option
and never panics, is modelled by `List.getElem?`. -/
def neighbor_prs (pr : List Char → Option (List Char)) (stack : List (List Char))
    (branch_index : Nat) : Option (List Char) × Option (List Char) :=
  ((stack[branch_index + 1]?).bind pr, (stack[wrapping_sub branch_index 1]?).bind pr)

/-- A branch surviving the two `Option::filter` guards of `StackIter::next`
is the parent and differs from both the main branch and the current one. -/
theorem stackNext_some {p : String → Option String} {main cur c : String}
    (h : stackNext p main cur = some c) :
    p cur = some c ∧ c ≠ main ∧ c ≠ cur := by
  unfold stackNext at h
  cases hp : p cur with
  | none => rw [hp] at h; simp [Option.filter] at h
  | some n =>
    rw [hp] at h
    by_cases h1 : n = main
    · simp [Option.filter, h1] at h
    · by_cases h2 : n = cur
      · subst h2
        simp [Option.filter, h1] at h
      · simp [Option.filter, h1, h2] at h
        exact ⟨by rw [h], by rw [← h]; exact h1, by rw [← h]; exact h2⟩

/-- An exhausted iterator state collects to the empty list at any fuel. -/
theorem runStackIter_exhausted (p : String → Option String) (main : String)
    (fuel : Nat) : runStackIter p main fuel none = some [] := by
  cases fuel <;> rfl

/-- A terminating run keeps its value when given more fuel. -/
theorem runStackIter_mono (p : String → Option String) (main : String) :
    ∀ fuel fuel' (o : Option String) (S : List String), fuel ≤ fuel' →
      runStackIter p main fuel o = some S → runStackIter p main fuel' o = some S := by
  intro fuel
  induction fuel with
  | zero =>
    intro fuel' o S _ h
    cases o with
    | none =>
      rw [runStackIter_exhausted] at h
      cases h
      exact runStackIter_exhausted p main fuel'
    | some cur => simp [runStackIter] at h
  | succ f ih =>
    intro fuel' o S hle h
    cases o with
    | none =>
      rw [runStackIter_exhausted] at h
      cases h
      exact runStackIter_exhausted p main fuel'
    | some cur =>
      obtain ⟨f', rfl⟩ : ∃ f', fuel' = f' + 1 := ⟨fuel' - 1, by omega⟩
      simp only [runStackIter] at h ⊢
      rcases Option.map_eq_some'.mp h with ⟨S', hS', rfl⟩
      rw [ih f' _ _ (by omega) hS']
      rfl

/-- Unfolding one terminating step of the iterator from a live state. -/
theorem runStackIter_succ_some {p : String → Option String} {main cur : String}
    {f : Nat} {S : List String}
    (h : runStackIter p main (f + 1) (some cur) = some S) :
    ∃ S', S = cur :: S' ∧ runStackIter p main f (stackNext p main cur) = some S' := by
  simp only [runStackIter] at h
  rcases Option.map_eq_some'.mp h with ⟨S', hS', rfl⟩
  exact ⟨S', rfl, hS'⟩

/-- Every suffix of a terminating run is a terminating run from the branch
heading the suffix, with correspondingly less fuel. -/
theorem runStackIter_drop (p : String → Option String) (main : String) :
    ∀ (i fuel : Nat) (o : Option String) (S : List String) (b : String),
      S[i]? = some b → runStackIter p main fuel o = some S →
      runStackIter p main (fuel - i) (some b) = some (S.drop i) := by
  intro i
  induction i with
  | zero =>
    intro fuel o S b hb h
    cases o with
    | none =>
      rw [runStackIter_exhausted] at h
      cases h
      simp at hb
    | some cur =>
      cases fuel with
      | zero => simp [runStackIter] at h
      | succ f =>
        rcases runStackIter_succ_some h with ⟨S', rfl, -⟩
        simp only [List.getElem?_cons_zero, Option.some.injEq] at hb
        subst hb
        simpa using h
  | succ i ih =>
    intro fuel o S b hb h
    cases o with
    | none =>
      rw [runStackIter_exhausted] at h
      cases h
      simp at hb
    | some cur =>
      cases fuel with
      | zero => simp [runStackIter] at h
      | succ f =>
        rcases runStackIter_succ_some h with ⟨S', rfl, hS'⟩
        have hb' : S'[i]? = some b := by simpa using hb
        have := ih f (stackNext p main cur) S' b hb' hS'
        simpa [Nat.succ_sub_succ] using this

/-- Elements after the head of a terminating run all passed the
main-branch filter. -/
theorem runStackIter_tail_ne_main (p : String → Option String) (main : String) :
    ∀ (fuel : Nat) (cur : String) (S : List String),
      runStackIter p main fuel (some cur) = some S →
      ∀ x ∈ S.drop 1, x ≠ main := by
  intro fuel
  induction fuel with
  | zero => intro cur S h; simp [runStackIter] at h
  | succ f ih =>
    intro cur S h x hx
    rcases runStackIter_succ_some h with ⟨S', rfl, hS'⟩
    simp only [List.drop_succ_cons, List.drop_zero] at hx
    cases hn : stackNext p main cur with
    | none =>
      rw [hn, runStackIter_exhausted] at hS'
      cases hS'
      simp at hx
    | some c' =>
      rw [hn] at hS'
      cases f with
      | zero => simp [runStackIter] at hS'
      | succ f' =>
        rcases runStackIter_succ_some hS' with ⟨S'', rfl, -⟩
        cases hx with
        | head => exact (stackNext_some hn).2.1
        | tail _ hx' => exact ih c' (c' :: S'') hS' x (by simpa using hx')

/-- A terminating run yields at most `fuel` branches. -/
theorem runStackIter_length_le (p : String → Option String) (main : String) :
    ∀ (fuel : Nat) (o : Option String) (S : List String),
      runStackIter p main fuel o = some S → S.length ≤ fuel := by
  intro fuel
  induction fuel with
  | zero =>
    intro o S h
    cases o with
    | none => rw [runStackIter_exhausted] at h; cases h; simp
    | some cur => simp [runStackIter] at h
  | succ f ih =>
    intro o S h
    cases o with
    | none => rw [runStackIter_exhausted] at h; cases h; simp
    | some cur =>
      rcases runStackIter_succ_some h with ⟨S', rfl, hS'⟩
      have := ih _ _ hS'
      simpa using this

/-- Claim C2 counterexample: with a parent oracle reporting no parent at
all, the walk started at the trunk branch terminates and produces the stack
`["main"]`, which contains the trunk branch — so the trunk can appear in a
produced stack. -/
theorem runStackIter_trunk_member :
    runStackIter (fun _ => none) "main" 1 (some "main") = some ["main"] ∧
      "main" ∈ ["main"] :=
  ⟨rfl, by simp⟩

/-- Claim C2 (amended): every stack the walker actually produces (that is,
the iterator terminates on it) contains no branch name twice, and the trunk
branch never appears past position 0 — the starting branch is yielded
before any filtering, so only a walk started at the trunk itself can list
the trunk, and only as its first element. The produced stack is finite,
with length bounded by the number of iterator steps of the terminating run;
the code itself imposes no a-priori bound. -/
theorem runStackIter_invariants (p : String → Option String) (main b : String)
    (fuel : Nat) (S : List String)
    (h : runStackIter p main fuel (some b) = some S) :
    S.Nodup ∧ (∀ x ∈ S.drop 1, x ≠ main) ∧ S.length ≤ fuel := by
  refine ⟨?_, runStackIter_tail_ne_main p main fuel b S h,
    runStackIter_length_le p main fuel (some b) S h⟩
  rw [List.nodup_iff_getElem?_ne_getElem?]
  intro i j hij hj heq
  have hjb : ∃ c, S[j]? = some c := by
    have : j < S.length := hj
    exact ⟨S[j], by simp⟩
  rcases hjb with ⟨c, hjc⟩
  have hic : S[i]? = some c := by rw [heq]; exact hjc
  have di := runStackIter_drop p main i fuel (some b) S c hic h
  have dj := runStackIter_drop p main j fuel (some b) S c hjc h
  have di' := runStackIter_mono p main (fuel - i) fuel _ _ (by omega) di
  have dj' := runStackIter_mono p main (fuel - j) fuel _ _ (by omega) dj
  rw [di'] at dj'
  have hdrop : S.drop i = S.drop j := by
    have := dj'
    exact (Option.some.injEq _ _).mp this
  have hlen : S.length - i = S.length - j := by
    have := congrArg List.length hdrop
    simpa using this
  omega

/-- Claim C2 witness: a concrete terminating run satisfying the amended
invariants. -/
theorem runStackIter_invariants_witness :
    runStackIter (fun _ => none) "trunk" 3 (some "feature") = some ["feature"] ∧
      ((["feature"] : List String).Nodup ∧
        (∀ x ∈ (["feature"] : List String).drop 1, x ≠ "trunk") ∧
        (["feature"] : List String).length ≤ 3) :=
  ⟨rfl, runStackIter_invariants (fun _ => none) "trunk" "feature" 3 ["feature"] rfl⟩

/-- Claim C3 counterexample: `main_branch` resolves the trunk `"main"` from
a `git branch` listing, yet the stack walk started at that trunk produces
the singleton `["main"]`, not the empty sequence. -/
theorem stack_from_trunk_nonempty :
    main_branch ["* main".data] = some "main".data ∧
      runStackIter (fun _ => none) "main" 2 (some "main") = some ["main"] ∧
      some ["main"] ≠ some ([] : List String) :=
  ⟨by decide, rfl, by simp⟩

/-- Claim C3 (amended): the walk started at the trunk branch always yields
the trunk itself first; when the trunk's parent does not survive the
filters (parent `None`, parent equal to the trunk, or self-parent), the
walk returns exactly the singleton `[trunk]` rather than the empty
sequence. -/
theorem runStackIter_from_trunk (p : String → Option String) (main : String)
    (fuel : Nat) (h : stackNext p main main = none) (hf : 1 ≤ fuel) :
    runStackIter p main fuel (some main) = some [main] := by
  obtain ⟨f, rfl⟩ : ∃ f, fuel = f + 1 := ⟨fuel - 1, by omega⟩
  simp only [runStackIter, h, runStackIter_exhausted]
  rfl

/-- Claim C3 witness: a concrete walk from the trunk returning the
singleton. -/
theorem runStackIter_from_trunk_witness :
    stackNext (fun _ => none) "master" "master" = none ∧ 1 ≤ 1 ∧
      runStackIter (fun _ => none) "master" 1 (some "master") = some ["master"] :=
  ⟨rfl, le_refl 1, runStackIter_from_trunk _ _ _ rfl (le_refl 1)⟩

/-- Claim C4 counterexample: with branch lines `master` and `main` both
present (in that listing order), `main_branch` does not fail, and it
returns `master`, not the documented priority choice `main`. -/
theorem main_branch_both_exist :
    main_branch ["master".data, "main".data] = some "master".data ∧
      main_branch ["master".data, "main".data] ≠ none :=
  ⟨by decide, by decide⟩

/-- Claim C4 (amended): `main_branch` fails exactly when no listed line
cleans to `main` or `master`; when at least one line does, it succeeds and
returns the first such cleaned name in listing order — in particular, when
both `main` and `master` exist it does not fail, and `master` wins whenever
it is listed first. -/
theorem main_branch_spec (lines : List (List Char)) :
    (main_branch lines = none ↔
      ∀ l ∈ lines, cleanBranchLine l ≠ "main".data ∧ cleanBranchLine l ≠ "master".data) ∧
    (∀ pre l post, lines = pre ++ l :: post →
      (∀ l' ∈ pre, cleanBranchLine l' ≠ "main".data ∧ cleanBranchLine l' ≠ "master".data) →
      (cleanBranchLine l = "main".data ∨ cleanBranchLine l = "master".data) →
      main_branch lines = some (cleanBranchLine l)) := by
  constructor
  · rw [main_branch, List.find?_eq_none]
    constructor
    · intro h l hl
      have := h (cleanBranchLine l) (List.mem_map_of_mem _ hl)
      simpa using this
    · intro h b hb
      rcases List.mem_map.mp hb with ⟨l, hl, rfl⟩
      have := h l hl
      simpa using this
  · intro pre l post hsplit hpre hl
    subst hsplit
    rw [main_branch]
    revert hpre
    induction pre with
    | nil =>
      intro _
      simp only [List.map_cons, List.nil_append]
      apply List.find?_cons_of_pos
      rcases hl with h | h <;> simp [h]
    | cons q pre' ih =>
      intro hpre
      simp only [List.cons_append, List.map_cons]
      rw [List.find?_cons_of_neg]
      · exact ih (fun l' hl' => hpre l' (List.mem_cons_of_mem _ hl'))
      · have hq := hpre q (by simp)
        simp [hq.1, hq.2]

/-- Claim C4 witness: the amended first-match behavior at a concrete
listing where `master` is first. -/
theorem main_branch_spec_witness :
    main_branch ["* master".data, "main".data] = some (cleanBranchLine "* master".data) :=
  (main_branch_spec ["* master".data, "main".data]).2 [] "* master".data ["main".data]
    rfl (by simp) (by right; decide)

/-- Claim C5 counterexample: the history line `"* x ) ("` carries no
local-branch label at all, yet `parent` over a window consisting of that
line does not return `Ok(None)`: `extract_branch` hits the slice panic
(first `')'` before first `'('`), modelled by the `none` result. -/
theorem parent_of_log_panic :
    line_result "* x ) (".data = none ∧
      parent_of_log ["* x ) (".data] = none ∧
      parent_of_log ["* x ) (".data] ≠ some none :=
  ⟨by decide, by decide, by decide⟩

/-- Claim C5 (amended): when every history line within the window is
processed without the slice panic and yields no qualifying local-branch
label (its `line_result` is `some none` — skipped for lack of a space, no
parenthesis group, or all labels discarded as remote-tracking/tag), then
`parent` returns `Ok(None)` rather than an error. -/
theorem parent_of_log_none (lines : List (List Char))
    (h : ∀ l ∈ lines, line_result l = some none) :
    parent_of_log lines = some none := by
  induction lines with
  | nil => rfl
  | cons l rest ih =>
    have hl := h l (by simp)
    simp only [parent_of_log, hl]
    exact ih (fun x hx => h x (by simp [hx]))

/-- Claim C5 witness: a decorated line carrying only remote-tracking and
tag labels yields no parent and no error. -/
theorem parent_of_log_none_witness :
    (∀ l ∈ [("* abc123 (origin/x, tag: v1) msg").data],
      line_result l = some none) ∧
    parent_of_log [("* abc123 (origin/x, tag: v1) msg").data] = some none :=
  ⟨by decide, parent_of_log_none _ (by decide)⟩

/-- Claim C6: for every body containing neither sentinel marker, merging a
note prepends a freshly delimited well-formed note block (open marker, the
note, close marker) and keeps the original body as an exact suffix. -/
theorem replace_note_fresh_block (body note : List Char)
    (hO : findSub OPEN body = none) (hC : findSub CLOSE body = none) :
    replace_note body note =
      (OPEN ++ '\n' :: (note ++ '\n' :: (CLOSE ++ ['\n']))) ++ body := by
  simp [replace_note, hO, hC]

/-- Claim C6 witness: the round trip at a concrete marker-free body. -/
theorem replace_note_fresh_block_witness :
    (findSub OPEN "hello".data = none ∧ findSub CLOSE "hello".data = none) ∧
      replace_note "hello".data "N".data =
        (OPEN ++ '\n' :: ("N".data ++ '\n' :: (CLOSE ++ ['\n']))) ++ "hello".data :=
  ⟨⟨by decide, by decide⟩,
    replace_note_fresh_block "hello".data "N".data (by decide) (by decide)⟩

/-- Claim C7: double-format rendering with no resolved review for either
neighbor yields exactly the single fallback sentence about being the only
PR in the stack, never an empty callout block. -/
theorem note_double_fallback :
    note_double none none =
      "> [!Note]\n> This is currently the only PR in the stack".data := by
  decide

/-- Claim C8: a review-lookup command that succeeds with an empty stdout is
reported as `Ok(None)` — the same non-error outcome as the recognized
"no pull requests found" case — rather than an empty review reference. -/
theorem pr_for_branch_empty_output (stderr : List Char) :
    pr_for_branch true [] stderr = Except.ok none :=
  rfl

/-- Claim C9: `update_note` does not hand a body to `set_pr_body` when the
run is a dry run or when the merged body equals the existing body. -/
theorem update_note_no_write (body note : List Char) (dry_run : Bool)
    (h : dry_run = true ∨ replace_note body note = body) :
    update_note body note dry_run = none := by
  rcases h with h | h
  · simp [update_note, h]
  · simp [update_note, h]

/-- Claim C9 witness: a concrete dry run performs no write. -/
theorem update_note_no_write_witness :
    ((true : Bool) = true ∨ replace_note "b".data "x".data = "b".data) ∧
      update_note "b".data "x".data true = none :=
  ⟨Or.inl rfl, update_note_no_write "b".data "x".data true (Or.inl rfl)⟩

/-- Claim C10: the neighbor lookups of `note_block` are total at every
stack position: for the head branch (index 0) the wrapped next-neighbor
index `0.wrapping_sub(1)` is `2^64 - 1`, which is out of range for any
vector (`usize`-bounded) stack, so the next review is `None` — no panic and
no aliasing of a valid element — and the previous lookup past the end of
the stack likewise yields `None`. -/
theorem neighbor_prs_total (pr : List Char → Option (List Char))
    (stack : List (List Char)) (hlen : stack.length < 2 ^ 64) :
    (neighbor_prs pr stack 0).2 = none ∧
      ∀ i, stack.length ≤ i + 1 → (neighbor_prs pr stack i).1 = none := by
  constructor
  · have h1 : wrapping_sub 0 1 = 2 ^ 64 - 1 := by decide
    have h2 : stack[wrapping_sub 0 1]? = none := by
      apply List.getElem?_eq_none
      rw [h1]
      exact Nat.le_pred_of_lt hlen
    simp [neighbor_prs, h2]
  · intro i hi
    simp [neighbor_prs, List.getElem?_eq_none hi]

/-- Claim C10 witness: the lookups at a concrete singleton stack. -/
theorem neighbor_prs_total_witness :
    ((["a".data] : List (List Char)).length < 2 ^ 64) ∧
      ((neighbor_prs (fun _ => some "7".data) ["a".data] 0).2 = none ∧
        ∀ i, (["a".data] : List (List Char)).length ≤ i + 1 →
          (neighbor_prs (fun _ => some "7".data) ["a".data] i).1 = none) :=
  ⟨by norm_num, neighbor_prs_total (fun _ => some "7".data) ["a".data] (by norm_num)⟩

/-- A pattern heading the string is found at position 0. -/
theorem findSub_starts {pat s : List Char} (h : pat <+: s) : findSub pat s = some 0 := by
  cases s with
  | nil =>
    have hn : pat = [] := by simpa using h
    subst hn
    rfl
  | cons c t => simp [findSub, h]

/-- One step of `findSub` past a position where the pattern does not
match. -/
theorem findSub_cons_not {pat : List Char} {c : Char} {t : List Char}
    (h : ¬ pat <+: (c :: t)) :
    findSub pat (c :: t) = (findSub pat t).map (· + 1) := by
  simp [findSub, h]

/-- A failing `findSub` means the pattern matches at no position. -/
theorem findSub_none_not_drop {pat : List Char} :
    ∀ {s : List Char}, findSub pat s = none → ∀ i, ¬ pat <+: s.drop i := by
  intro s
  induction s with
  | nil =>
    intro h i hp
    have hn : pat = [] := by simpa using hp
    subst hn
    simp [findSub] at h
  | cons c t ih =>
    intro h i hp
    have hnc : ¬ pat <+: (c :: t) := by
      intro hc
      rw [findSub_starts hc] at h
      cases h
    have h' : findSub pat t = none := by
      rw [findSub_cons_not hnc] at h
      cases hft : findSub pat t with
      | none => rfl
      | some k => rw [hft] at h; simp at h
    cases i with
    | zero => exact hnc (by simpa using hp)
    | succ i' => exact ih h' i' (by simpa using hp)

/-- Shifting `findSub` across a leading region containing no match. -/
theorem findSub_append_shift {pat : List Char} :
    ∀ (a b : List Char), (∀ j, j < a.length → ¬ pat <+: (a.drop j ++ b)) →
      findSub pat (a ++ b) = (findSub pat b).map (· + a.length) := by
  intro a
  induction a with
  | nil =>
    intro b _
    cases hfb : findSub pat b <;> simp [hfb]
  | cons c a' ih =>
    intro b h
    have h0 : ¬ pat <+: (c :: (a' ++ b)) := by
      have := h 0 (by simp)
      simpa using this
    rw [List.cons_append, findSub_cons_not h0,
      ih b (fun j hj hp => h (j + 1) (by simp only [List.length_cons]; omega)
        (by simpa using hp))]
    cases findSub pat b with
    | none => simp
    | some x => simp [Nat.add_assoc]

/-- A character mismatch inside the retained window refutes a match. -/
theorem not_prefix_of_getElem_ne {pat u : List Char} (v : List Char) {j k : Nat}
    (hk : k < pat.length) (hjk : j + k < u.length)
    (hne : pat[k]? ≠ u[j + k]?) : ¬ pat <+: (u.drop j ++ v) := by
  intro hp
  have hz := (List.isPrefix_iff.mp hp) k hk
  have hk2 : k < (u.drop j).length := by
    simp only [List.length_drop]
    omega
  rw [List.getElem?_append_left hk2, List.getElem?_drop] at hz
  exact hne (by rw [List.getElem?_eq_getElem hk, hz])

/-- At every offset inside the open marker (plus its newline), the close
marker disagrees on some character still inside that window. -/
theorem close_mismatch_in_open :
    ∀ j, j < (OPEN ++ ['\n']).length →
      ∃ k, k < CLOSE.length ∧ j + k < (OPEN ++ ['\n']).length ∧
        CLOSE[k]? ≠ (OPEN ++ ['\n'])[j + k]? := by decide

/-- The close marker cannot match starting inside a region made of a piece
of a close-marker-free string followed by a newline: either it would fit
inside that string, or it would have to contain the newline. -/
theorem close_not_prefix_mid (n1 : List Char) (hn : findSub CLOSE n1 = none)
    (i : Nat) (w : List Char) : ¬ CLOSE <+: (n1.drop i ++ '\n' :: w) := by
  intro hp
  by_cases hlen : CLOSE.length ≤ (n1.drop i).length
  · have hcp : CLOSE <+: n1.drop i := by
      have hp' := List.prefix_iff_eq_take.mp hp
      rw [List.take_append_of_le_length hlen] at hp'
      exact List.prefix_iff_eq_take.mpr hp'
    exact findSub_none_not_drop hn i hcp
  · push_neg at hlen
    have hz := (List.isPrefix_iff.mp hp) (n1.drop i).length hlen
    rw [List.getElem?_append_right (le_refl (n1.drop i).length)] at hz
    simp only [Nat.sub_self, List.getElem?_cons_zero] at hz
    have hmem : '\n' ∈ CLOSE := (Option.some.inj hz) ▸ List.getElem_mem hlen
    have hno : '\n' ∉ CLOSE := by decide
    exact hno hmem

/-- The first close marker of a freshly produced note block sits right
after the open-marker / newline / note / newline prefix, provided the note
itself contains no close marker. -/
theorem findSub_close_after_block (n1 w : List Char) (hn : findSub CLOSE n1 = none) :
    findSub CLOSE (((OPEN ++ ['\n']) ++ (n1 ++ ['\n'])) ++ (CLOSE ++ w)) =
      some ((OPEN ++ ['\n']) ++ (n1 ++ ['\n'])).length := by
  rw [findSub_append_shift _ _ ?side, findSub_starts (List.prefix_append CLOSE w)]
  · simp
  case side =>
    intro j hj hp
    by_cases hj25 : j < (OPEN ++ ['\n']).length
    · rcases close_mismatch_in_open j hj25 with ⟨k, hk, hjk, hne⟩
      have hp' : CLOSE <+:
          ((OPEN ++ ['\n']).drop j ++ ((n1 ++ ['\n']) ++ (CLOSE ++ w))) := by
        rw [List.drop_append_of_le_length (Nat.le_of_lt hj25)] at hp
        simpa [List.append_assoc] using hp
      exact not_prefix_of_getElem_ne _ hk hjk hne hp'
    · push_neg at hj25
      obtain ⟨i, rfl⟩ : ∃ i, j = (OPEN ++ ['\n']).length + i :=
        ⟨j - (OPEN ++ ['\n']).length, by omega⟩
      have hi : i ≤ n1.length := by
        simp only [List.length_append, List.length_cons, List.length_nil] at hj
        omega
      rw [List.drop_append i, List.drop_append_of_le_length hi] at hp
      exact close_not_prefix_mid n1 hn i (CLOSE ++ w) (by simpa using hp)

/-- A pattern opening with `'<'` finds no match in a newline-headed string
whose tail contains none. -/
theorem findSub_newline_cons {pat : List Char} {body : List Char}
    (hd : pat[0]? = some '<') (h : findSub pat body = none) :
    findSub pat ('\n' :: body) = none := by
  have hne : ¬ pat <+: ('\n' :: body) := by
    intro hp
    cases pat with
    | nil => simp at hd
    | cons p0 pt =>
      rw [List.getElem?_cons_zero] at hd
      have h1 : p0 = '<' := Option.some.inj hd
      have h2 : p0 = '\n' := (List.cons_prefix_cons.mp hp).1
      rw [h1] at h2
      cases h2
  rw [findSub_cons_not hne, h]
  rfl

/-- Claim C1 counterexample: merging the same note twice into the same body
does not yield the same result as merging it once — the second merge leaves
an extra newline in front of the retained body. -/
theorem replace_note_not_idempotent :
    replace_note (replace_note "hi".data "x".data) "x".data ≠
      replace_note "hi".data "x".data := by decide

/-- Claim C1 (amended): `replace_note` is not literally idempotent. For a
body and a first note free of sentinel markers, re-merging replaces only
the previous note's content but leaves one extra newline after the close
marker: merging twice equals a single merge into the body with one newline
prepended. -/
theorem replace_note_remerge (body n1 n2 : List Char)
    (hO : findSub OPEN body = none) (hC : findSub CLOSE body = none)
    (hn : findSub CLOSE n1 = none) :
    replace_note (replace_note body n1) n2 = replace_note ('\n' :: body) n2 ∧
      replace_note (replace_note body n1) n2 =
        OPEN ++ '\n' :: (n2 ++ '\n' :: (CLOSE ++ '\n' :: '\n' :: body)) := by
  have hr1 : replace_note body n1 =
      ((OPEN ++ ['\n']) ++ (n1 ++ ['\n'])) ++ (CLOSE ++ '\n' :: body) := by
    simp [replace_note, hO, hC]
  have hfC := findSub_close_after_block n1 ('\n' :: body) hn
  have hfO : findSub OPEN
      (((OPEN ++ ['\n']) ++ (n1 ++ ['\n'])) ++ (CLOSE ++ '\n' :: body)) = some 0 := by
    apply findSub_starts
    have he : ((OPEN ++ ['\n']) ++ (n1 ++ ['\n'])) ++ (CLOSE ++ '\n' :: body) =
        OPEN ++ ('\n' :: (n1 ++ ['\n']) ++ (CLOSE ++ '\n' :: body)) := by simp
    rw [he]
    exact List.prefix_append _ _
  have hlen0 : 0 < ((OPEN ++ ['\n']) ++ (n1 ++ ['\n'])).length := by simp
  have hdropBig :
      ((((OPEN ++ ['\n']) ++ (n1 ++ ['\n'])) ++ (CLOSE ++ '\n' :: body)).drop
        (((OPEN ++ ['\n']) ++ (n1 ++ ['\n'])).length + CLOSE.length)) = '\n' :: body := by
    rw [show ((OPEN ++ ['\n']) ++ (n1 ++ ['\n'])) ++ (CLOSE ++ '\n' :: body) =
        ((((OPEN ++ ['\n']) ++ (n1 ++ ['\n'])) ++ CLOSE) ++ '\n' :: body) by simp]
    apply List.drop_left'
    simp only [List.length_append, List.length_cons, List.length_nil]
  have hout : replace_note (replace_note body n1) n2 =
      OPEN ++ '\n' :: (n2 ++ '\n' :: (CLOSE ++ '\n' :: '\n' :: body)) := by
    rw [hr1]
    simp only [replace_note, hfO, hfC]
    rw [if_pos hlen0]
    rw [hdropBig]
    rw [List.take_zero, List.nil_append]
  have hrhs : replace_note ('\n' :: body) n2 =
      OPEN ++ '\n' :: (n2 ++ '\n' :: (CLOSE ++ '\n' :: '\n' :: body)) := by
    have hO' : findSub OPEN ('\n' :: body) = none :=
      findSub_newline_cons (by decide) hO
    have hC' : findSub CLOSE ('\n' :: body) = none :=
      findSub_newline_cons (by decide) hC
    simp [replace_note, hO', hC']
  exact ⟨by rw [hout, hrhs], hout⟩

/-- Claim C1 witness: the amended re-merge equation at concrete inputs. -/
theorem replace_note_remerge_witness :
    (findSub OPEN "hi".data = none ∧ findSub CLOSE "hi".data = none ∧
        findSub CLOSE "x".data = none) ∧
      (replace_note (replace_note "hi".data "x".data) "y".data =
          replace_note ('\n' :: "hi".data) "y".data ∧
        replace_note (replace_note "hi".data "x".data) "y".data =
          OPEN ++ '\n' :: ("y".data ++ '\n' :: (CLOSE ++ '\n' :: '\n' :: "hi".data))) :=
  ⟨⟨by decide, by decide, by decide⟩,
    replace_note_remerge "hi".data "x".data "y".data (by decide) (by decide) (by decide)⟩

end Stackbuddy
